import Mathlib

/-!
Verification of the CourtIQ batch-ETL core logic: percentile ranking,
tier classification, upsert batching, derived-rate guards, record
building and the refresh ledger, shallowly embedded from
`scripts/calculate_percentiles.py`, `scripts/fetch_advanced_stats.py`,
`scripts/fetch_players.py` and `scripts/config.py`.

Numeric values are modelled as exact rationals.  The Python built-in
`round` (round half to even, aka banker's rounding) is modelled by
`pyRound`; `round(x, d)` by `roundTo d x`.
-/

namespace CourtIQ

/-- Python `round(q)` to an integer: round half to even.  The fractional
part of `q` is `r = q - ⌊q⌋ = (q.num - ⌊q⌋ * q.den) / q.den`, so
`r < 1/2` is `2 * (q.num - ⌊q⌋ * q.den) < q.den` and symmetrically for
`r > 1/2`; on an exact tie the even neighbour is chosen.  The integer
form is used so that the function evaluates by kernel reduction. -/
def pyRound (q : ℚ) : ℤ :=
  if 2 * (q.num - q.floor * q.den) < (q.den : ℤ) then q.floor
  else if (q.den : ℤ) < 2 * (q.num - q.floor * q.den) then q.floor + 1
  else if 2 ∣ q.floor then q.floor else q.floor + 1

/-- Python `round(q, d)`: round to `d` decimal places, half to even. -/
def roundTo (d : ℕ) (q : ℚ) : ℚ :=
  (pyRound (q * (10 : ℚ) ^ d) : ℚ) / (10 : ℚ) ^ d

theorem ratFloor_eq_intFloor (q : ℚ) : q.floor = ⌊q⌋ := by
  rw [Rat.floor_def', ← Rat.floor_def]

theorem sub_floor_eq (q : ℚ) :
    q - (q.floor : ℚ) = ((q.num - q.floor * q.den : ℤ) : ℚ) / (q.den : ℚ) := by
  have hd : (q.den : ℚ) ≠ 0 := by exact_mod_cast q.den_nz
  have h := Rat.num_div_den q
  have h2 : (q.num : ℚ) = q * (q.den : ℚ) := (div_eq_iff hd).mp h
  push_cast
  rw [eq_div_iff hd, h2]
  ring

theorem pyRound_ge (q : ℚ) : q - 1/2 ≤ (pyRound q : ℚ) := by
  have hden : (0 : ℚ) < (q.den : ℚ) := by exact_mod_cast q.den_pos
  have hfl : ((q.floor : ℤ) : ℚ) ≤ q := by
    rw [ratFloor_eq_intFloor]; exact Int.floor_le q
  have hfu : q < ((q.floor : ℤ) : ℚ) + 1 := by
    rw [ratFloor_eq_intFloor]; exact Int.lt_floor_add_one q
  have heq := sub_floor_eq q
  push_cast at heq
  unfold pyRound
  split_ifs with h1 h2 h3
  · have h1' : 2 * ((q.num : ℚ) - (q.floor : ℚ) * (q.den : ℚ)) < (q.den : ℚ) := by
      exact_mod_cast h1
    have hhalf : q - (q.floor : ℚ) ≤ 1/2 := by
      rw [heq, div_le_iff₀ hden]; linarith
    linarith
  · push_cast; linarith
  · have h2' : 2 * ((q.num : ℚ) - (q.floor : ℚ) * (q.den : ℚ)) ≤ (q.den : ℚ) := by
      have := not_lt.mp h2; exact_mod_cast this
    have hhalf : q - (q.floor : ℚ) ≤ 1/2 := by
      rw [heq, div_le_iff₀ hden]; linarith
    linarith
  · push_cast; linarith

theorem pyRound_le (q : ℚ) : (pyRound q : ℚ) ≤ q + 1/2 := by
  have hden : (0 : ℚ) < (q.den : ℚ) := by exact_mod_cast q.den_pos
  have hfl : ((q.floor : ℤ) : ℚ) ≤ q := by
    rw [ratFloor_eq_intFloor]; exact Int.floor_le q
  have hfu : q < ((q.floor : ℤ) : ℚ) + 1 := by
    rw [ratFloor_eq_intFloor]; exact Int.lt_floor_add_one q
  have heq := sub_floor_eq q
  push_cast at heq
  unfold pyRound
  split_ifs with h1 h2 h3
  · linarith
  · have h2' : (q.den : ℚ) < 2 * ((q.num : ℚ) - (q.floor : ℚ) * (q.den : ℚ)) := by
      exact_mod_cast h2
    have hhalf : 1/2 < q - (q.floor : ℚ) := by
      rw [heq, lt_div_iff₀ hden]; linarith
    push_cast
    linarith
  · linarith
  · have h1' : (q.den : ℚ) ≤ 2 * ((q.num : ℚ) - (q.floor : ℚ) * (q.den : ℚ)) := by
      have := not_lt.mp h1; exact_mod_cast this
    have hhalf : 1/2 ≤ q - (q.floor : ℚ) := by
      rw [heq, le_div_iff₀ hden]; linarith
    push_cast
    linarith

theorem pyRound_mono {a b : ℚ} (h : a ≤ b) : pyRound a ≤ pyRound b := by
  by_contra hab
  push_neg at hab
  have h1 := pyRound_le a
  have h2 := pyRound_ge b
  have hint : pyRound b + 1 ≤ pyRound a := hab
  have hint' : (pyRound b : ℚ) + 1 ≤ (pyRound a : ℚ) := by exact_mod_cast hint
  have heq : a = b := le_antisymm h (by linarith)
  subst heq
  exact lt_irrefl _ hab

theorem pyRound_nonneg {q : ℚ} (h : 0 ≤ q) : 0 ≤ pyRound q := by
  have h2 := pyRound_ge q
  have h3 : (-1 : ℚ) < (pyRound q : ℚ) := by linarith
  have h4 : (-1 : ℤ) < pyRound q := by exact_mod_cast h3
  omega

theorem pyRound_le_intCast {q : ℚ} {m : ℤ} (h : q ≤ (m : ℚ)) : pyRound q ≤ m := by
  have h1 := pyRound_le q
  have h2 : (pyRound q : ℚ) < (m : ℚ) + 1 := by linarith
  have h3 : pyRound q < m + 1 := by exact_mod_cast h2
  omega

theorem pyRound_eq_of_bounds {q : ℚ} {m : ℤ} (h1 : (m : ℚ) - 1/2 < q)
    (h2 : q < (m : ℚ) + 1/2) : pyRound q = m := by
  have hg := pyRound_ge q
  have hl := pyRound_le q
  have ha : ((m : ℤ) : ℚ) - 1 < (pyRound q : ℚ) := by linarith
  have hb : (pyRound q : ℚ) < ((m : ℤ) : ℚ) + 1 := by linarith
  have ha' : (m : ℤ) - 1 < pyRound q := by exact_mod_cast ha
  have hb' : pyRound q < m + 1 := by exact_mod_cast hb
  omega

/-! ### Percentile Ranker — `scripts/calculate_percentiles.py` -/

/-- Constant `MIN_PLAYERS_FOR_PERCENTILE = 10` from calculate_percentiles.py. -/
def MIN_PLAYERS_FOR_PERCENTILE : ℕ := 10

/-- Function `compute_percentile_rank(value, all_values)`:
`below = sum(1 for v in all_values if v < value)`;
`return round((below / len(all_values)) * 100)`. -/
def compute_percentile_rank (value : ℚ) (all_values : List ℚ) : ℤ :=
  pyRound (((all_values.countP (fun v => decide (v < value)) : ℕ) : ℚ)
    / (all_values.length : ℚ) * 100)

/-- The ten-value pool `{A:10, B:20, ..., J:100}` of the spec scenario. -/
def scenario_pool : List ℚ := [10, 20, 30, 40, 50, 60, 70, 80, 90, 100]

theorem ratio_nonneg (c n : ℕ) : (0 : ℚ) ≤ ((c : ℚ) / (n : ℚ)) * 100 := by
  positivity

theorem ratio_le_100 {c n : ℕ} (hc : c ≤ n) (hn : 0 < n) :
    ((c : ℚ) / (n : ℚ)) * 100 ≤ 100 := by
  have hn' : (0 : ℚ) < (n : ℚ) := by exact_mod_cast hn
  have h1 : (c : ℚ) / (n : ℚ) ≤ 1 := by
    rw [div_le_one hn']
    exact_mod_cast hc
  linarith

theorem ratio_mono {c1 c2 n : ℕ} (h : c1 ≤ c2) :
    ((c1 : ℚ) / (n : ℚ)) * 100 ≤ ((c2 : ℚ) / (n : ℚ)) * 100 := by
  have h' : (c1 : ℚ) ≤ (c2 : ℚ) := by exact_mod_cast h
  have hn : (0 : ℚ) ≤ (n : ℚ) := by positivity
  gcongr

/-- Claim C2: in a qualifying pool the computed percentile is exactly
`round(100 * |{x in pool : x < v}| / |pool|)`, and on the scenario pool
`{10, 20, ..., 100}` the minimum scores 0 and the maximum scores 90. -/
theorem compute_percentile_rank_spec (value : ℚ) (pool : List ℚ)
    (h : MIN_PLAYERS_FOR_PERCENTILE ≤ pool.length) :
    compute_percentile_rank value pool
      = pyRound (100 * ((pool.countP (fun x => decide (x < value)) : ℕ) : ℚ)
          / (pool.length : ℚ))
    ∧ compute_percentile_rank 10 scenario_pool = 0
    ∧ compute_percentile_rank 100 scenario_pool = 90 := by
  refine ⟨?_, ?_, ?_⟩
  · unfold compute_percentile_rank
    congr 1
    ring
  · unfold compute_percentile_rank
    have hc : scenario_pool.countP (fun v => decide (v < (10 : ℚ))) = 0 := by decide
    have hl : scenario_pool.length = 10 := by decide
    rw [hc, hl]
    have harg : (((0 : ℕ) : ℚ) / ((10 : ℕ) : ℚ) * 100) = ((0 : ℤ) : ℚ) := by
      push_cast; norm_num
    rw [harg]
    exact pyRound_eq_of_bounds (by norm_num) (by norm_num)
  · unfold compute_percentile_rank
    have hc : scenario_pool.countP (fun v => decide (v < (100 : ℚ))) = 9 := by decide
    have hl : scenario_pool.length = 10 := by decide
    rw [hc, hl]
    have harg : (((9 : ℕ) : ℚ) / ((10 : ℕ) : ℚ) * 100) = ((90 : ℤ) : ℚ) := by
      push_cast; norm_num
    rw [harg]
    exact pyRound_eq_of_bounds (by norm_num) (by norm_num)

/-- Witness for C2 at the scenario pool. -/
theorem compute_percentile_rank_spec_witness :
    MIN_PLAYERS_FOR_PERCENTILE ≤ scenario_pool.length
    ∧ compute_percentile_rank 10 scenario_pool = 0
    ∧ compute_percentile_rank 100 scenario_pool = 90 :=
  ⟨by decide, (compute_percentile_rank_spec 10 scenario_pool (by decide)).2.1,
    (compute_percentile_rank_spec 10 scenario_pool (by decide)).2.2⟩

/-! ### Percentile map — `scripts/fetch_advanced_stats.py` -/

/-- The early-break scan of `compute_percentile_map`: walk the (sorted)
value list and count elements strictly below `v`, stopping at the first
element that is not. -/
def count_below (values : List ℚ) (v : ℚ) : ℕ :=
  match values with
  | [] => 0
  | x :: xs => if x < v then count_below xs v + 1 else 0

theorem count_below_le_length (values : List ℚ) (v : ℚ) :
    count_below values v ≤ values.length := by
  induction values with
  | nil => simp [count_below]
  | cons x xs ih =>
    unfold count_below
    split_ifs <;> simp <;> omega

theorem count_below_mono (values : List ℚ) {v1 v2 : ℚ} (h : v1 ≤ v2) :
    count_below values v1 ≤ count_below values v2 := by
  induction values with
  | nil => simp [count_below]
  | cons x xs ih =>
    unfold count_below
    split_ifs with h1 h2
    · omega
    · exact absurd (lt_of_lt_of_le h1 h) h2
    · omega
    · omega

theorem count_below_sorted {values : List ℚ} (hs : values.Sorted (· ≤ ·)) (v : ℚ) :
    count_below values v = values.countP (fun x => decide (x < v)) := by
  induction values with
  | nil => simp [count_below]
  | cons x xs ih =>
    rw [List.sorted_cons] at hs
    unfold count_below
    rw [List.countP_cons]
    by_cases h1 : x < v
    · rw [if_pos h1, ih hs.2]
      simp [h1]
    · rw [if_neg h1]
      have hz : xs.countP (fun x => decide (x < v)) = 0 := by
        rw [List.countP_eq_zero]
        intro a ha
        simp only [decide_eq_true_eq]
        exact fun hlt => h1 (lt_of_le_of_lt (hs.1 a ha) hlt)
      simp [h1, hz]

/-- The per-player rank computed inside `compute_percentile_map`:
`pctile = round((count_below / n) * 100, 1)` with `n = len(values)`. -/
def map_rank (values : List ℚ) (v : ℚ) : ℚ :=
  roundTo 1 (((count_below values v : ℕ) : ℚ) / (values.length : ℚ) * 100)

theorem pow_ten_one : (10 : ℚ) ^ 1 = 10 := by norm_num

theorem roundTo_one_nonneg {q : ℚ} (h : 0 ≤ q) : 0 ≤ roundTo 1 q := by
  unfold roundTo
  rw [pow_ten_one]
  have h1 : 0 ≤ pyRound (q * 10) := pyRound_nonneg (by positivity)
  have h2 : (0 : ℚ) ≤ (pyRound (q * 10) : ℚ) := by exact_mod_cast h1
  positivity

theorem roundTo_one_le_100 {q : ℚ} (h : q ≤ 100) : roundTo 1 q ≤ 100 := by
  unfold roundTo
  rw [pow_ten_one]
  have h1 : pyRound (q * 10) ≤ (1000 : ℤ) := by
    apply pyRound_le_intCast
    push_cast
    linarith
  have h2 : (pyRound (q * 10) : ℚ) ≤ 1000 := by exact_mod_cast h1
  rw [div_le_iff₀ (by norm_num : (0:ℚ) < 10)]
  linarith

theorem roundTo_one_mono {a b : ℚ} (h : a ≤ b) : roundTo 1 a ≤ roundTo 1 b := by
  unfold roundTo
  rw [pow_ten_one]
  have h1 : pyRound (a * 10) ≤ pyRound (b * 10) := by
    apply pyRound_mono
    linarith
  have h2 : (pyRound (a * 10) : ℚ) ≤ (pyRound (b * 10) : ℚ) := by
    exact_mod_cast h1
  gcongr

/-- Claim C3: for a qualifying pool (at least 10 values) percentiles lie
in `[0, 100]` and are monotone in the value, for both the integer-rounded
rank of calculate_percentiles.py and the one-decimal rank of
fetch_advanced_stats.py. -/
theorem percentile_rank_bounds_mono (pool : List ℚ)
    (h : MIN_PLAYERS_FOR_PERCENTILE ≤ pool.length) (v1 v2 : ℚ) (hv : v1 < v2) :
    (0 ≤ compute_percentile_rank v1 pool ∧ compute_percentile_rank v1 pool ≤ 100)
    ∧ compute_percentile_rank v1 pool ≤ compute_percentile_rank v2 pool
    ∧ (0 ≤ map_rank pool v1 ∧ map_rank pool v1 ≤ 100)
    ∧ map_rank pool v1 ≤ map_rank pool v2 := by
  have hn : 0 < pool.length := by
    have : (10 : ℕ) ≤ pool.length := h
    omega
  have hcle : pool.countP (fun x => decide (x < v1)) ≤ pool.length :=
    List.countP_le_length _
  refine ⟨⟨?_, ?_⟩, ?_, ⟨?_, ?_⟩, ?_⟩
  · exact pyRound_nonneg (ratio_nonneg _ _)
  · unfold compute_percentile_rank
    apply pyRound_le_intCast
    have := ratio_le_100 hcle hn
    push_cast
    push_cast at this
    linarith
  · apply pyRound_mono
    apply ratio_mono
    apply List.countP_mono_left
    intro x _ hx
    simp only [decide_eq_true_eq] at hx ⊢
    exact lt_trans hx hv
  · exact roundTo_one_nonneg (ratio_nonneg _ _)
  · exact roundTo_one_le_100 (ratio_le_100 (count_below_le_length _ _) hn)
  · exact roundTo_one_mono (ratio_mono (count_below_mono _ (le_of_lt hv)))

/-- Witness for C3 at the scenario pool with values 10 and 20. -/
theorem percentile_rank_bounds_mono_witness :
    MIN_PLAYERS_FOR_PERCENTILE ≤ scenario_pool.length ∧ (10 : ℚ) < 20
    ∧ compute_percentile_rank 10 scenario_pool ≤ compute_percentile_rank 20 scenario_pool :=
  ⟨by decide, by decide,
    (percentile_rank_bounds_mono scenario_pool (by decide) 10 20 (by decide)).2.1⟩

/-- Constant `MPG_THRESHOLD = 20.0` from fetch_advanced_stats.py. -/
def MPG_THRESHOLD : ℚ := 20

/-- The two stat columns for which `compute_percentile_map` is invoked
by `apply_percentiles` (ts_pct and usg_pct). -/
inductive AdvCol
  | ts_pct
  | usg_pct
deriving DecidableEq

/-- The slice of a record built by `build_season_records` that
`compute_percentile_map` reads: player id, the transient `_min_pg`
field, and the two available stat columns (`none` models NULL). -/
structure AdvRecord where
  nba_player_id : ℤ
  min_pg : Option ℚ
  ts_pct : Option ℚ
  usg_pct : Option ℚ
deriving DecidableEq

/-- Dictionary access `r[stat_col]` for the two columns in use. -/
def AdvRecord.stat : AdvRecord → AdvCol → Option ℚ
  | r, .ts_pct => r.ts_pct
  | r, .usg_pct => r.usg_pct

/-- The qualification filter of `compute_percentile_map`:
`r.get("_min_pg") is not None and r["_min_pg"] >= MPG_THRESHOLD and
r.get(stat_col) is not None`. -/
def isQualifying (c : AdvCol) (r : AdvRecord) : Bool :=
  match r.min_pg with
  | none => false
  | some m => decide (MPG_THRESHOLD ≤ m) && (r.stat c).isSome

/-- Python list `qualifying = [r for r in records if ...]` in `compute_percentile_map`. -/
def qualifyingRecords (records : List AdvRecord) (c : AdvCol) : List AdvRecord :=
  records.filter (isQualifying c)

/-- The stat values of the qualifying records (each is non-`none` by the
filter, so `filterMap` extracts exactly one value per record). -/
def qualifyingValues (records : List AdvRecord) (c : AdvCol) : List ℚ :=
  (qualifyingRecords records c).filterMap (fun r => r.stat c)

/-- Function `compute_percentile_map(records, stat_col)` from
fetch_advanced_stats.py: filter to qualifying records (20+ MPG and a
non-NULL stat), return `{}` if none qualify, otherwise sort the values
(`values = sorted(...)`, modelled by a stable sort) and give each
qualifying player `round((count_below / n) * 100, 1)` where
`count_below` is the early-break scan over the sorted list.  The Python
result dict keyed by `nba_player_id` is modelled as the association
list of its insertions. -/
def compute_percentile_map (records : List AdvRecord) (c : AdvCol) : List (ℤ × ℚ) :=
  if (qualifyingRecords records c).isEmpty then []
  else
    (qualifyingRecords records c).filterMap (fun r =>
      (r.stat c).map (fun v =>
        (r.nba_player_id,
          map_rank (List.insertionSort (fun a b => a ≤ b) (qualifyingValues records c)) v)))

/-- The percentile map as the claim states it: for each qualifying player
with value `v`, exactly `round(100 * |{x in pool : x < v}| / |pool|, 1)`
where the pool is the (unsorted) list of qualifying values and the count
is a naive strict-less-than count over the whole pool. -/
def compute_percentile_map_claim (records : List AdvRecord) (c : AdvCol) : List (ℤ × ℚ) :=
  (qualifyingRecords records c).filterMap (fun r =>
    (r.stat c).map (fun v =>
      (r.nba_player_id,
        roundTo 1 (100 * (((qualifyingValues records c).countP
            (fun x => decide (x < v)) : ℕ) : ℚ) / ((qualifyingValues records c).length : ℚ)))))

theorem map_rank_sorted_eq (pool : List ℚ) (v : ℚ) :
    map_rank (List.insertionSort (fun a b => a ≤ b) pool) v
      = roundTo 1 (100 * ((pool.countP (fun x => decide (x < v)) : ℕ) : ℚ)
          / (pool.length : ℚ)) := by
  unfold map_rank
  have hs : (List.insertionSort (fun a b => a ≤ b) pool).Sorted (· ≤ ·) :=
    List.sorted_insertionSort _ pool
  have hp : (List.insertionSort (fun a b => a ≤ b) pool).Perm pool :=
    List.perm_insertionSort _ pool
  rw [count_below_sorted hs, hp.countP_eq, hp.length_eq]
  congr 1
  ring

/-- Claim C8: the sorted early-break scan of `compute_percentile_map` is
equivalent to the naive strict-less-than count over the whole pool. -/
theorem compute_percentile_map_eq_claim (records : List AdvRecord) (c : AdvCol) :
    compute_percentile_map records c = compute_percentile_map_claim records c := by
  unfold compute_percentile_map compute_percentile_map_claim
  by_cases hq : (qualifyingRecords records c).isEmpty = true
  · have hnil : qualifyingRecords records c = [] := by
      simpa using hq
    rw [if_pos hq, hnil]
    rfl
  · rw [if_neg hq]
    refine congrArg (fun f => (qualifyingRecords records c).filterMap f) ?_
    funext r
    cases hstat : r.stat c with
    | none => rfl
    | some v =>
      simp only [Option.map_some']
      rw [map_rank_sorted_eq]

/-- Python dict `.get` on the modelled association list: the last
insertion for a key wins; a missing key gives `None`. -/
def dict_get (m : List (ℤ × ℚ)) (pid : ℤ) : Option ℚ :=
  ((m.filter (fun e => e.1 = pid)).getLast?).map (fun e => e.2)

/-- The five percentile fields attached to each record by
`apply_percentiles` in fetch_advanced_stats.py. -/
structure PctileFields where
  nba_player_id : ℤ
  ts_pctile : Option ℚ
  usg_pctile : Option ℚ
  per_pctile : Option ℚ
  ws_pctile : Option ℚ
  bpm_pctile : Option ℚ
deriving DecidableEq

/-- Function `apply_percentiles(records)`: computes the ts and usg percentile
maps and attaches `ts_map.get(pid)` / `usg_map.get(pid)` to each
record; per/ws/bpm percentiles are set to NULL (source stats are NULL
for MVP).  Only the percentile fields are modelled. -/
def apply_percentiles (records : List AdvRecord) : List PctileFields :=
  records.map (fun r =>
    { nba_player_id := r.nba_player_id
      ts_pctile := dict_get (compute_percentile_map records AdvCol.ts_pct) r.nba_player_id
      usg_pctile := dict_get (compute_percentile_map records AdvCol.usg_pct) r.nba_player_id
      per_pctile := none
      ws_pctile := none
      bpm_pctile := none })

theorem roundTo_one_intCast (m : ℤ) : roundTo 1 (m : ℚ) = (m : ℚ) := by
  unfold roundTo
  rw [pow_ten_one]
  have h : pyRound ((m : ℚ) * 10) = 10 * m :=
    pyRound_eq_of_bounds (by push_cast; linarith) (by push_cast; linarith)
  rw [h]
  push_cast
  field_simp

/-- A single advanced-stat record: one qualifying player (25 MPG) with a
non-NULL ts_pct value. -/
def c1_records : List AdvRecord :=
  [{ nba_player_id := 1, min_pg := some 25, ts_pct := some 55, usg_pct := none }]

theorem c1_map_rank_eval : map_rank [(55 : ℚ)] 55 = 0 := by
  unfold map_rank
  have hc : count_below [(55 : ℚ)] 55 = 0 := by decide
  have hl : ([(55 : ℚ)]).length = 1 := rfl
  rw [hc, hl]
  have harg : (((0 : ℕ) : ℚ)) / ((1 : ℕ) : ℚ) * 100 = ((0 : ℤ) : ℚ) := by
    push_cast
    norm_num
  rw [harg, roundTo_one_intCast]
  norm_num

/-- Claim C1 counterexample: in `compute_percentile_map` a pool with a
single non-absent value (far fewer than 10) still produces a non-null
percentile: the lone qualifying player receives 0.0, not NULL, and
`apply_percentiles` writes it into the record's `ts_pctile`. -/
theorem small_pool_not_null_counterexample :
    ((c1_records.filter (fun r => (r.stat AdvCol.ts_pct).isSome)).length
        < MIN_PLAYERS_FOR_PERCENTILE)
    ∧ compute_percentile_map c1_records AdvCol.ts_pct = [(1, 0)]
    ∧ (apply_percentiles c1_records).map (fun r => r.ts_pctile) = [some 0] := by
  have hmap : compute_percentile_map c1_records AdvCol.ts_pct = [(1, 0)] := by
    have hq : qualifyingRecords c1_records AdvCol.ts_pct = c1_records := by decide
    have hv : qualifyingValues c1_records AdvCol.ts_pct = [(55 : ℚ)] := by decide
    unfold compute_percentile_map
    rw [hq, hv]
    simp only [c1_records, List.isEmpty_cons, Bool.false_eq_true, if_false,
      List.filterMap_cons]
    rw [show (List.insertionSort (fun a b => a ≤ b) [(55 : ℚ)]) = [(55 : ℚ)] from rfl]
    simp [AdvRecord.stat, c1_map_rank_eval]
  refine ⟨by decide, hmap, ?_⟩
  unfold apply_percentiles
  simp only [hmap]
  decide

/-! ### `compute_all_percentiles` — `scripts/calculate_percentiles.py` -/

/-- The five stat columns of `STAT_TO_PCTILE`, in iteration order. -/
inductive Stat
  | per
  | ts_pct
  | usg_pct
  | ws
  | bpm
deriving DecidableEq

/-- Keys `list(STAT_TO_PCTILE)` in insertion order.  Each stat column maps to
its percentile column, so the same tag is used for both sides. -/
def Stat.all : List Stat := [Stat.per, Stat.ts_pct, Stat.usg_pct, Stat.ws, Stat.bpm]

/-- One row returned by `get_tier1_advanced_stats`: player id plus the
five stat columns (`none` models NULL). -/
structure StatRow where
  nba_player_id : ℤ
  per : Option ℚ
  ts_pct : Option ℚ
  usg_pct : Option ℚ
  ws : Option ℚ
  bpm : Option ℚ
deriving DecidableEq

/-- Dictionary access `r.get(stat_col)`. -/
def StatRow.stat : StatRow → Stat → Option ℚ
  | r, .per => r.per
  | r, .ts_pct => r.ts_pct
  | r, .usg_pct => r.usg_pct
  | r, .ws => r.ws
  | r, .bpm => r.bpm

/-- Python list `valid_entries = [(r["nba_player_id"], r[stat_col]) for r in rows if
r.get(stat_col) is not None]`. -/
def validEntries (rows : List StatRow) (s : Stat) : List (ℤ × ℚ) :=
  rows.filterMap (fun r => (r.stat s).map (fun v => (r.nba_player_id, v)))

/-- The final percentile value `results[pid][pctile_col]` after
`compute_all_percentiles` runs, expressed directly: `None` when the
pool is below `MIN_PLAYERS_FOR_PERCENTILE` (the loop `continue`s) or
when the player contributed no valid entry; otherwise the rank of the
player's value, where (as with a Python dict write per entry) the last
valid entry for the id wins. -/
def pctileValue (rows : List StatRow) (s : Stat) (pid : ℤ) : Option ℤ :=
  if (validEntries rows s).length < MIN_PLAYERS_FOR_PERCENTILE then none
  else
    match ((validEntries rows s).filter (fun e => e.1 = pid)).getLast? with
    | none => none
    | some e => some (compute_percentile_rank e.2 ((validEntries rows s).map Prod.snd))

/-- Key list of a Python dict built by inserting in order: the first
occurrence fixes the position, duplicates are dropped. -/
def dedupFirst : List ℤ → List ℤ → List ℤ
  | [], _ => []
  | x :: xs, seen => if x ∈ seen then dedupFirst xs seen else x :: dedupFirst xs (x :: seen)

/-- Function `compute_all_percentiles(rows)` from calculate_percentiles.py: the
result dict maps every input player id to an inner dict holding exactly
the five percentile columns, initialised to `None` and overwritten per
stat when the pool qualifies.  The outer dict is modelled as an
association list in key-insertion order, the inner dict as an
association list over `Stat.all`. -/
def compute_all_percentiles (rows : List StatRow) : List (ℤ × List (Stat × Option ℤ)) :=
  (dedupFirst (rows.map (fun r => r.nba_player_id)) []).map
    (fun pid => (pid, Stat.all.map (fun s => (s, pctileValue rows s pid))))

/-- Claim C1 (amended): in `compute_all_percentiles` a pool with fewer
than `MIN_PLAYERS_FOR_PERCENTILE = 10` non-absent values yields a NULL
percentile for every player for that statistic. -/
theorem min_qualifying_gate (rows : List StatRow) (s : Stat)
    (h : (validEntries rows s).length < MIN_PLAYERS_FOR_PERCENTILE) :
    ∀ pid, pctileValue rows s pid = none := by
  intro pid
  unfold pctileValue
  rw [if_pos h]

/-- One row with two non-absent values: every pool has at most one value. -/
def c1_rows : List StatRow :=
  [{ nba_player_id := 1, per := some 20, ts_pct := some 55,
     usg_pct := none, ws := none, bpm := none }]

/-- Witness for the amended C1. -/
theorem min_qualifying_gate_witness :
    (validEntries c1_rows Stat.per).length < MIN_PLAYERS_FOR_PERCENTILE
    ∧ pctileValue c1_rows Stat.per 1 = none :=
  ⟨by decide, min_qualifying_gate c1_rows Stat.per (by decide) 1⟩

theorem mem_dedupFirst (l : List ℤ) : ∀ (seen : List ℤ) (x : ℤ),
    x ∈ dedupFirst l seen ↔ (x ∈ l ∧ x ∉ seen) := by
  induction l with
  | nil => intro seen x; simp [dedupFirst]
  | cons y ys ih =>
    intro seen x
    unfold dedupFirst
    split_ifs with hy
    · rw [ih]
      simp only [List.mem_cons]
      constructor
      · rintro ⟨hx, hns⟩
        exact ⟨Or.inr hx, hns⟩
      · rintro ⟨hx | hx, hns⟩
        · subst hx; exact absurd hy hns
        · exact ⟨hx, hns⟩
    · simp only [List.mem_cons, ih]
      constructor
      · rintro (rfl | ⟨hx, hns⟩)
        · exact ⟨Or.inl rfl, hy⟩
        · simp only [List.mem_cons, not_or] at hns
          exact ⟨Or.inr hx, hns.2⟩
      · rintro ⟨rfl | hx, hns⟩
        · exact Or.inl rfl
        · by_cases hxy : x = y
          · exact Or.inl hxy
          · exact Or.inr ⟨hx, by simp [not_or, hxy, hns]⟩

/-- Claim C9: the outer key set of `compute_all_percentiles` is exactly
the player ids of the input rows; every player's inner dict carries
exactly the five percentile columns; and a player whose value is absent
for a statistic gets NULL for that statistic even when the pool
qualifies. -/
theorem compute_all_percentiles_shape (rows : List StatRow) :
    (∀ pid, pid ∈ (compute_all_percentiles rows).map Prod.fst
        ↔ pid ∈ rows.map (fun r => r.nba_player_id))
    ∧ (∀ e ∈ compute_all_percentiles rows, e.2.map Prod.fst = Stat.all)
    ∧ (∀ pid s, (∀ r ∈ rows, r.nba_player_id = pid → r.stat s = none) →
        pctileValue rows s pid = none) := by
  refine ⟨?_, ?_, ?_⟩
  · intro pid
    unfold compute_all_percentiles
    rw [List.map_map]
    have hfst : (Prod.fst ∘ fun pid => ((pid : ℤ),
        Stat.all.map (fun s => (s, pctileValue rows s pid)))) = id := by
      funext z; rfl
    rw [hfst, List.map_id, mem_dedupFirst]
    simp
  · intro e he
    unfold compute_all_percentiles at he
    rw [List.mem_map] at he
    obtain ⟨pid, _, rfl⟩ := he
    simp only [List.map_map]
    have hfst : (Prod.fst ∘ fun s => ((s : Stat), pctileValue rows s pid)) = id := by
      funext z; rfl
    rw [hfst, List.map_id]
  · intro pid s habs
    unfold pctileValue
    split_ifs with hlen
    · rfl
    · have hfil : (validEntries rows s).filter (fun e => e.1 = pid) = [] := by
        rw [List.filter_eq_nil_iff]
        intro e he
        simp only [decide_eq_true_eq]
        intro hpid
        unfold validEntries at he
        rw [List.mem_filterMap] at he
        obtain ⟨r, hr, hmap⟩ := he
        cases hstat : r.stat s with
        | none => rw [hstat] at hmap; exact Option.noConfusion hmap
        | some v =>
          rw [hstat] at hmap
          simp only [Option.map_some', Option.some_inj] at hmap
          have hrpid : r.nba_player_id = pid := by
            rw [← hpid, ← hmap]
          have := habs r hr hrpid
          rw [this] at hstat
          exact Option.noConfusion hstat
      rw [hfil]
      rfl

/-- Rows where player 2 has a NULL usg_pct while the usg pool (from ten
other rows) qualifies. -/
def c9_rows : List StatRow :=
  (List.range 10).map (fun k =>
    { nba_player_id := (k : ℤ) + 10, per := none, ts_pct := none,
      usg_pct := some ((k : ℚ) + 1), ws := none, bpm := none })
  ++ [{ nba_player_id := 2, per := none, ts_pct := none,
        usg_pct := none, ws := none, bpm := none }]

/-- Witness for C9: player 2's usg percentile is NULL although the usg
pool has 10 qualifying values. -/
theorem compute_all_percentiles_shape_witness :
    (validEntries c9_rows Stat.usg_pct).length = 10
    ∧ pctileValue c9_rows Stat.usg_pct 2 = none :=
  ⟨by decide, (compute_all_percentiles_shape c9_rows).2.2 2 Stat.usg_pct (by decide)⟩

/-! ### Upsert Batcher — `upsert_players` / `upsert_advanced_stats` -/

/-- Constant `UPSERT_BATCH_SIZE = 50` in both fetch_players.py and
fetch_advanced_stats.py. -/
def UPSERT_BATCH_SIZE : ℕ := 50

/-- The chunks visited by `for i in range(0, total, B): batch = records[i:i+B]`:
chunk `k` is the slice starting at offset `k * B`, and `range(0, total, B)`
has `ceil(total / B)` elements.  (`B = 0` raises in Python and is modelled
as no chunks; the theorems assume `0 < B`.) -/
def upsertBatches {α : Type} (B : ℕ) (l : List α) : List (List α) :=
  (List.range ((l.length + B - 1) / B)).map (fun k => (l.drop (k * B)).take B)

/-- The upsert loop body: each chunk is attempted in order; a chunk whose
upsert raises (per `failIdx` on its index) contributes nothing, any other
chunk adds `len(batch)` to the returned counter. -/
def upsertLoop {α : Type} (failIdx : ℕ → Bool) : ℕ → List (List α) → ℕ
  | _, [] => 0
  | i, b :: bs => (if failIdx i then 0 else b.length) + upsertLoop failIdx (i + 1) bs

/-- The count returned by `upsert_players` / `upsert_advanced_stats` when
the chunks whose index satisfies `failIdx` raise. -/
def upsertCount {α : Type} (failIdx : ℕ → Bool) (B : ℕ) (l : List α) : ℕ :=
  upsertLoop failIdx 0 (upsertBatches B l)

theorem take_add_eq {α : Type} : ∀ (l : List α) (m n : ℕ),
    l.take (m + n) = l.take m ++ (l.drop m).take n
  | _, 0, _ => by simp
  | [], _ + 1, _ => by simp
  | x :: xs, m + 1, n => by
    rw [show m + 1 + n = (m + n) + 1 by omega]
    simp only [List.take_succ_cons, List.drop_succ_cons, List.cons_append]
    rw [take_add_eq xs m n]

theorem flatten_slices {α : Type} (B : ℕ) (l : List α) : ∀ m : ℕ,
    ((List.range m).map (fun k => (l.drop (k * B)).take B)).flatten = l.take (m * B) := by
  intro m
  induction m with
  | zero => simp
  | succ n ih =>
    rw [List.range_succ, List.map_append, List.flatten_append]
    simp only [List.map_cons, List.map_nil, List.flatten_cons, List.flatten_nil,
      List.append_nil]
    rw [ih, show (n + 1) * B = n * B + B by ring, take_add_eq]

theorem length_le_ceil_mul {N B : ℕ} (hB : 0 < B) : N ≤ ((N + B - 1) / B) * B := by
  rcases Nat.eq_zero_or_pos N with h0 | h0
  · subst h0; exact Nat.zero_le _
  · have hrw : N + B - 1 = (N - 1) + B := by omega
    have hlt : (N - 1) / B < (N + B - 1) / B := by
      rw [hrw, Nat.add_div_right _ hB]
      omega
    have hlt2 : N - 1 < ((N + B - 1) / B) * B :=
      (Nat.div_lt_iff_lt_mul hB).mp hlt
    have hsucc := Nat.succ_le_of_lt hlt2
    calc N = (N - 1) + 1 := by omega
    _ ≤ ((N + B - 1) / B) * B := hsucc

theorem getD_length_le_sum {α : Type} (bs : List (List α)) : ∀ j : ℕ,
    (bs.getD j []).length ≤ (bs.map List.length).sum := by
  induction bs with
  | nil => intro j; simp [List.getD]
  | cons b bs ih =>
    intro j
    cases j with
    | zero =>
      simp only [List.getD_cons_zero, List.map_cons, List.sum_cons]
      omega
    | succ n =>
      simp only [List.getD_cons_succ, List.map_cons, List.sum_cons]
      have := ih n
      omega

theorem upsertLoop_single {α : Type} (j : ℕ) (bs : List (List α)) : ∀ k : ℕ,
    upsertLoop (fun i => i == j) k bs
      = (bs.map List.length).sum - (if k ≤ j then (bs.getD (j - k) []).length else 0) := by
  induction bs with
  | nil =>
    intro k
    simp only [upsertLoop, List.map_nil, List.sum_nil, List.getD_nil]
    split_ifs <;> rfl
  | cons b bs ih =>
    intro k
    unfold upsertLoop
    rw [ih (k + 1)]
    by_cases hkj : k = j
    · subst hkj
      rw [if_pos (by simp), if_neg (by omega), if_pos (le_refl k)]
      simp only [Nat.sub_self, List.getD_cons_zero, List.map_cons, List.sum_cons]
      omega
    · rw [if_neg (by simp [hkj])]
      simp only [List.map_cons, List.sum_cons]
      by_cases hk : k ≤ j
      · rw [if_pos (by omega : k + 1 ≤ j), if_pos hk]
        obtain ⟨d, hd⟩ : ∃ d, j - k = d + 1 := ⟨j - k - 1, by omega⟩
        have hgd : (b :: bs).getD (j - k) [] = bs.getD d [] := by
          rw [hd, List.getD_cons_succ]
        rw [hgd, show j - (k + 1) = d by omega]
        have hle := getD_length_le_sum bs d
        omega
      · rw [if_neg (by omega : ¬ k + 1 ≤ j), if_neg hk]
        omega

/-- Claim C4: with batch size `B > 0` the batcher issues exactly
`ceil(N / B)` chunks, each a contiguous slice of at most `B` records
whose concatenation is the input; and when exactly the chunk at index
`j` raises, the returned count is `N` minus that chunk's size (all other
chunks are still attempted and counted). -/
theorem upsert_batcher_spec {α : Type} (l : List α) (B j : ℕ) (hB : 0 < B)
    (hj : j < (upsertBatches B l).length) :
    (upsertBatches B l).length = (l.length + B - 1) / B
    ∧ (∀ c ∈ upsertBatches B l, c.length ≤ B)
    ∧ (upsertBatches B l).flatten = l
    ∧ upsertCount (fun i => i == j) B l
        = l.length - ((upsertBatches B l).getD j []).length := by
  have hflat : (upsertBatches B l).flatten = l := by
    unfold upsertBatches
    rw [flatten_slices]
    exact List.take_of_length_le (length_le_ceil_mul hB)
  have hsum : ((upsertBatches B l).map List.length).sum = l.length := by
    rw [← List.length_flatten, hflat]
  refine ⟨?_, ?_, hflat, ?_⟩
  · unfold upsertBatches
    rw [List.length_map, List.length_range]
  · intro c hc
    unfold upsertBatches at hc
    rw [List.mem_map] at hc
    obtain ⟨k, _, rfl⟩ := hc
    rw [List.length_take]
    exact min_le_left _ _
  · unfold upsertCount
    rw [upsertLoop_single j (upsertBatches B l) 0, if_pos (Nat.zero_le j),
      Nat.sub_zero, hsum]

set_option maxRecDepth 8000 in
/-- Witness for C4: 125 records, batch size 50, chunk 2 (index 1) fails:
3 chunks, success count 75. -/
theorem upsert_batcher_spec_witness :
    0 < 50 ∧ 1 < (upsertBatches 50 (List.range 125)).length
    ∧ (upsertBatches 50 (List.range 125)).length = 3
    ∧ upsertCount (fun i => i == 1) 50 (List.range 125) = 75 := by
  have h := upsert_batcher_spec (List.range 125) 50 1 (by decide) (by decide)
  refine ⟨by decide, by decide, by decide, ?_⟩
  rw [h.2.2.2]
  decide

/-! ### Tier Classifier and player records — `scripts/fetch_players.py` -/

/-- Constant `MPG_TIER1_THRESHOLD = 20.0` from fetch_players.py. -/
def MPG_TIER1_THRESHOLD : ℚ := 20

/-- Python `str.strip()`: drop leading and trailing whitespace. -/
def pyStrip (s : String) : String :=
  String.mk (((s.data.dropWhile Char.isWhitespace).reverse.dropWhile
    Char.isWhitespace).reverse)

/-- Function `safe_str(value)` from fetch_players.py: `None` for NaN/empty (NaN is
modelled as `none`), else `str(value).strip()`. -/
def safe_str (v : Option String) : Option String :=
  match v with
  | none => none
  | some s => if s = "" then none else some (pyStrip s)

/-- Python `x or ''` applied to the result of `safe_str`. -/
def orEmpty : Option String → String
  | none => ""
  | some s => s

/-- The roster fields of one `PlayerIndex` row that the modelled record
fields depend on. -/
structure IndexRow where
  person_id : ℤ
  first_name : Option String
  last_name : Option String
deriving DecidableEq

/-- Python `full_name = f"{safe_str(first) or ''} {safe_str(last) or ''}".strip()`. -/
def full_name_of (r : IndexRow) : String :=
  pyStrip (orEmpty (safe_str r.first_name) ++ " " ++ orEmpty (safe_str r.last_name))

/-- The `mpg_lookup` dict of `build_player_records`: built from the
league-stats rows `(PLAYER_ID, MIN)` where a NaN `MIN` is stored as 0.0
(modelled as `none`), later rows overwriting earlier ones; `.get(pid, 0.0)`
returns 0.0 for an absent player. -/
def mpg_lookup (stats : List (ℤ × Option ℚ)) (pid : ℤ) : ℚ :=
  match (stats.filter (fun e => e.1 == pid)).getLast? with
  | none => 0
  | some e => e.2.getD 0

/-- Python `tier = 1 if mpg >= MPG_TIER1_THRESHOLD else 2`. -/
def assign_tier (mpg : ℚ) : ℕ :=
  if MPG_TIER1_THRESHOLD ≤ mpg then 1 else 2

/-- The modelled fields of an upsert-ready player record. -/
structure PlayerRecord where
  nba_player_id : ℤ
  full_name : String
  is_active : Bool
  tier : ℕ
deriving DecidableEq

/-- The record built for one roster row. -/
def mk_player_record (stats : List (ℤ × Option ℚ)) (r : IndexRow) : PlayerRecord :=
  { nba_player_id := r.person_id
    full_name := full_name_of r
    is_active := true
    tier := assign_tier (mpg_lookup stats r.person_id) }

/-- The row loop of `build_player_records` with its `seen_ids` set: a row
whose id was seen is skipped; otherwise the id is marked seen, a row with
an empty full name is skipped, and any other row produces a record. -/
def build_go (stats : List (ℤ × Option ℚ)) : List IndexRow → List ℤ → List PlayerRecord
  | [], _ => []
  | r :: rest, seen =>
    if r.person_id ∈ seen then build_go stats rest seen
    else if full_name_of r = "" then build_go stats rest (r.person_id :: seen)
    else mk_player_record stats r :: build_go stats rest (r.person_id :: seen)

/-- Function `build_player_records(player_index_df, league_stats_df)`. -/
def build_player_records (idx : List IndexRow) (stats : List (ℤ × Option ℚ)) :
    List PlayerRecord :=
  build_go stats idx []

theorem build_go_mem (stats : List (ℤ × Option ℚ)) : ∀ (idx : List IndexRow)
    (seen : List ℤ) (rec : PlayerRecord), rec ∈ build_go stats idx seen →
    rec.nba_player_id ∉ seen
    ∧ rec.is_active = true
    ∧ rec.full_name ≠ ""
    ∧ rec.tier = assign_tier (mpg_lookup stats rec.nba_player_id) := by
  intro idx
  induction idx with
  | nil => intro seen rec h; simp [build_go] at h
  | cons r rest ih =>
    intro seen rec h
    unfold build_go at h
    split_ifs at h with h1 h2
    · exact ih seen rec h
    · have hthis := ih (r.person_id :: seen) rec h
      exact ⟨fun hs => hthis.1 (List.mem_cons_of_mem _ hs), hthis.2⟩
    · rcases List.mem_cons.mp h with rfl | hmem
      · exact ⟨h1, rfl, h2, rfl⟩
      · have hthis := ih (r.person_id :: seen) rec hmem
        exact ⟨fun hs => hthis.1 (List.mem_cons_of_mem _ hs), hthis.2⟩

theorem build_go_nodup (stats : List (ℤ × Option ℚ)) : ∀ (idx : List IndexRow)
    (seen : List ℤ),
    ((build_go stats idx seen).map (fun rec => rec.nba_player_id)).Nodup := by
  intro idx
  induction idx with
  | nil => intro seen; simp [build_go]
  | cons r rest ih =>
    intro seen
    unfold build_go
    split_ifs with h1 h2
    · exact ih seen
    · exact ih _
    · simp only [List.map_cons, List.nodup_cons]
      refine ⟨?_, ih _⟩
      intro hmem
      rw [List.mem_map] at hmem
      obtain ⟨rec, hrec, hpid⟩ := hmem
      have hni := (build_go_mem stats rest _ rec hrec).1
      apply hni
      rw [hpid]
      exact List.mem_cons_self _ _

theorem build_go_find_none (stats : List (ℤ × Option ℚ)) (idx : List IndexRow)
    (seen : List ℤ) (p : ℤ) (hp : p ∈ seen) :
    (build_go stats idx seen).find? (fun rec => rec.nba_player_id == p) = none := by
  rw [List.find?_eq_none]
  intro rec hrec
  simp only [beq_iff_eq]
  intro hpid
  exact (build_go_mem stats idx seen rec hrec).1 (hpid ▸ hp)

theorem build_go_find (stats : List (ℤ × Option ℚ)) : ∀ (idx : List IndexRow)
    (seen : List ℤ) (p : ℤ), p ∉ seen →
    (build_go stats idx seen).find? (fun rec => rec.nba_player_id == p)
      = (idx.find? (fun r => r.person_id == p)).bind
          (fun r => if full_name_of r = "" then none
                    else some (mk_player_record stats r)) := by
  intro idx
  induction idx with
  | nil => intro seen p hp; simp [build_go]
  | cons r rest ih =>
    intro seen p hp
    unfold build_go
    by_cases hpid : r.person_id = p
    · subst hpid
      rw [if_neg hp]
      rw [List.find?_cons_of_pos _ (by simp)]
      by_cases hname : full_name_of r = ""
      · rw [if_pos hname]
        rw [build_go_find_none stats rest _ _ (List.mem_cons_self _ _)]
        simp [hname]
      · rw [if_neg hname]
        rw [List.find?_cons_of_pos _ (by simp [mk_player_record])]
        simp [hname]
    · rw [List.find?_cons_of_neg _ (by simp [hpid])]
      have hp' : p ∉ r.person_id :: seen := by
        simp only [List.mem_cons, not_or]
        exact ⟨fun he => hpid he.symm, hp⟩
      split_ifs with h1 h2
      · exact ih seen p hp
      · exact ih _ p hp'
      · rw [List.find?_cons_of_neg _ (by simp [mk_player_record, hpid])]
        exact ih _ p hp'

/-- Claim C10: `build_player_records` produces at most one record per
player id — the record found for an id is exactly the one built from the
first roster row with that id (and none if that row's name is empty) —
and every record is active, has a non-empty name and a tier of 1 or 2. -/
theorem build_player_records_invariants (idx : List IndexRow)
    (stats : List (ℤ × Option ℚ)) :
    ((build_player_records idx stats).map (fun rec => rec.nba_player_id)).Nodup
    ∧ (∀ p : ℤ,
        (build_player_records idx stats).find? (fun rec => rec.nba_player_id == p)
          = (idx.find? (fun r => r.person_id == p)).bind
              (fun r => if full_name_of r = "" then none
                        else some (mk_player_record stats r)))
    ∧ (∀ rec ∈ build_player_records idx stats,
        rec.is_active = true ∧ rec.full_name ≠ "" ∧ (rec.tier = 1 ∨ rec.tier = 2)) := by
  refine ⟨build_go_nodup stats idx [], ?_, ?_⟩
  · intro p
    exact build_go_find stats idx [] p (List.not_mem_nil p)
  · intro rec hrec
    have hm := build_go_mem stats idx [] rec hrec
    refine ⟨hm.2.1, hm.2.2.1, ?_⟩
    rw [hm.2.2.2]
    unfold assign_tier
    split_ifs
    · exact Or.inl rfl
    · exact Or.inr rfl

/-- Claim C5: each produced record's tier is exactly the classifier
applied to the looked-up MPG — tier 1 iff MPG ≥ 20, tier 2 iff MPG < 20 —
a player absent from the per-game stats has MPG 0 and tier 2, and the
boundary cases give `assign_tier 20.0 = 1` and `assign_tier 19.99 = 2`. -/
theorem tier_classifier_spec (idx : List IndexRow) (stats : List (ℤ × Option ℚ)) :
    (∀ rec ∈ build_player_records idx stats,
        rec.tier = assign_tier (mpg_lookup stats rec.nba_player_id)
        ∧ (rec.tier = 1 ↔ MPG_TIER1_THRESHOLD ≤ mpg_lookup stats rec.nba_player_id)
        ∧ (rec.tier = 2 ↔ mpg_lookup stats rec.nba_player_id < MPG_TIER1_THRESHOLD))
    ∧ (∀ pid : ℤ, (∀ e ∈ stats, e.1 ≠ pid) →
        mpg_lookup stats pid = 0 ∧ assign_tier (mpg_lookup stats pid) = 2)
    ∧ assign_tier 20 = 1
    ∧ assign_tier (1999/100) = 2 := by
  refine ⟨?_, ?_, ?_, ?_⟩
  · intro rec hrec
    have ht := (build_go_mem stats idx [] rec hrec).2.2.2
    refine ⟨ht, ?_, ?_⟩
    · rw [ht]; unfold assign_tier
      split_ifs with hle
      · simp [hle]
      · simp [hle]
    · rw [ht]; unfold assign_tier
      split_ifs with hle
      · simp [not_lt.mpr hle]
      · simp [not_le.mp hle]
  · intro pid habs
    have hfil : stats.filter (fun e => e.1 == pid) = [] := by
      rw [List.filter_eq_nil_iff]
      intro e he
      simp only [beq_iff_eq]
      exact habs e he
    have h0 : mpg_lookup stats pid = 0 := by
      unfold mpg_lookup
      rw [hfil]
      rfl
    refine ⟨h0, ?_⟩
    rw [h0]
    unfold assign_tier MPG_TIER1_THRESHOLD
    rw [if_neg (by norm_num)]
  · unfold assign_tier MPG_TIER1_THRESHOLD
    rw [if_pos (le_refl _)]
  · unfold assign_tier MPG_TIER1_THRESHOLD
    rw [if_neg (by norm_num)]

/-- Concrete roster and per-game stats for the witnesses: player 1 has
34.2 MPG, player 2 has 12 MPG, player 3 is absent from the stats, and
player 1 appears twice in the roster. -/
def c5_idx : List IndexRow :=
  [{ person_id := 1, first_name := some ("Stephen"), last_name := some ("Curry") },
   { person_id := 1, first_name := some ("Steph"), last_name := some ("C") },
   { person_id := 2, first_name := some ("Role"), last_name := some ("Player") },
   { person_id := 3, first_name := some ("No"), last_name := some ("Stats") }]

def c5_stats : List (ℤ × Option ℚ) := [(1, some 34), (2, some 12)]

/-- Witness for C5: the boundary facts and the absent-player default. -/
theorem tier_classifier_spec_witness :
    assign_tier 20 = 1 ∧ assign_tier (1999/100) = 2
    ∧ (∀ e ∈ c5_stats, e.1 ≠ 3) ∧ assign_tier (mpg_lookup c5_stats 3) = 2 :=
  ⟨(tier_classifier_spec c5_idx c5_stats).2.2.1,
   (tier_classifier_spec c5_idx c5_stats).2.2.2,
   by decide,
   ((tier_classifier_spec c5_idx c5_stats).2.1 3 (by decide)).2⟩

/-- Witness for C10: on the concrete roster, player 1's record comes from
the first of their two roster rows. -/
theorem build_player_records_invariants_witness :
    (build_player_records c5_idx c5_stats).find? (fun rec => rec.nba_player_id == 1)
      = (c5_idx.find? (fun r => r.person_id == 1)).bind
          (fun r => if full_name_of r = "" then none
                    else some (mk_player_record c5_stats r))
    ∧ (c5_idx.find? (fun r => r.person_id == 1))
        = some { person_id := 1, first_name := some ("Stephen"), last_name := some ("Curry") } :=
  ⟨(build_player_records_invariants c5_idx c5_stats).2.1 1, by decide⟩

/-! ### Record Builder derived rates — `build_season_records` -/

/-- The base-measure columns merged onto a row of `build_season_records`
(left join, so any of them may be NaN, modelled as `none`; an absent key
reads as 0 via `row.get(col, 0) or 0` and is modelled as `some 0`). -/
structure MergedRow where
  FG3A : Option ℚ
  FGA : Option ℚ
  FTA : Option ℚ
deriving DecidableEq

/-- Python `safe_float(num / fga, 3)` for a known-positive `fga`: a NaN
numerator propagates to a NaN quotient which `safe_float` turns into
`None`; otherwise the quotient rounded to 3 decimals. -/
def ratio_rounded (num : Option ℚ) (den : ℚ) : Option ℚ :=
  match num with
  | none => none
  | some x => some (roundTo 3 (x / den))

/-- The derived-stat block of `build_season_records`:
`fga = float(row.get("FGA", 0) or 0)`; if `fga > 0` then
`three_par = safe_float(FG3A / fga, 3)` and `ftr = safe_float(FTA / fga, 3)`,
else both are `None`.  (A NaN `fga` fails `fga > 0` and also lands in the
`None` branch.)  Returns `(three_par, ftr)`. -/
def derive_rates (row : MergedRow) : Option ℚ × Option ℚ :=
  match row.FGA with
  | some fga =>
      if 0 < fga then (ratio_rounded row.FG3A fga, ratio_rounded row.FTA fga)
      else (none, none)
  | none => (none, none)

/-- Claim C6: when the denominator is zero or absent the derived fields
are null, and a non-null derived field can only arise from a strictly
positive denominator — no division by zero is ever performed. -/
theorem derived_ratio_guard (row : MergedRow) :
    ((row.FGA = none ∨ row.FGA = some 0) → derive_rates row = (none, none))
    ∧ (∀ x, (derive_rates row).1 = some x → ∃ f, row.FGA = some f ∧ 0 < f)
    ∧ (∀ x, (derive_rates row).2 = some x → ∃ f, row.FGA = some f ∧ 0 < f) := by
  refine ⟨?_, ?_, ?_⟩
  · rintro (h | h) <;> simp [derive_rates, h]
  · intro x hx
    unfold derive_rates at hx
    cases hfga : row.FGA with
    | none =>
      rw [hfga] at hx
      dsimp only at hx
      exact absurd hx (by simp)
    | some f =>
      rw [hfga] at hx
      dsimp only at hx
      by_cases hpos : 0 < f
      · exact ⟨f, rfl, hpos⟩
      · rw [if_neg hpos] at hx
        exact absurd hx (by simp)
  · intro x hx
    unfold derive_rates at hx
    cases hfga : row.FGA with
    | none =>
      rw [hfga] at hx
      dsimp only at hx
      exact absurd hx (by simp)
    | some f =>
      rw [hfga] at hx
      dsimp only at hx
      by_cases hpos : 0 < f
      · exact ⟨f, rfl, hpos⟩
      · rw [if_neg hpos] at hx
        exact absurd hx (by simp)

/-- A merged row with zero field-goal attempts. -/
def c6_row : MergedRow := { FG3A := some 5, FGA := some 0, FTA := some 3 }

/-- Witness for C6 at a zero denominator. -/
theorem derived_ratio_guard_witness :
    (c6_row.FGA = none ∨ c6_row.FGA = some 0)
    ∧ derive_rates c6_row = (none, none) :=
  ⟨Or.inr rfl, (derived_ratio_guard c6_row).1 (Or.inr rfl)⟩

/-! ### Refresh Ledger — `scripts/config.py` and the job `main` bodies -/

/-- Status values of a `data_refresh_log` row. -/
inductive RefreshStatus
  | started
  | completed
  | failed
deriving DecidableEq

/-- The modelled columns of a `data_refresh_log` row. -/
structure LedgerEntry where
  job_name : String
  status : RefreshStatus
  players_updated : Option ℕ
  error_message : Option String
deriving DecidableEq

/-- Function `log_refresh_start(job_name)`: inserts a `started` row. -/
def log_refresh_start (job : String) : LedgerEntry :=
  { job_name := job, status := RefreshStatus.started,
    players_updated := none, error_message := none }

/-- Function `log_refresh_complete(log_id, job_name, n)`: marks the row completed. -/
def log_refresh_complete (e : LedgerEntry) (count : ℕ) : LedgerEntry :=
  { e with status := RefreshStatus.completed, players_updated := some count }

/-- Function `log_refresh_failed(log_id, job_name, msg)`: marks the row failed with
the error text truncated to 2000 characters (`error_message[:2000]`). -/
def log_refresh_failed (e : LedgerEntry) (msg : String) : LedgerEntry :=
  { e with status := RefreshStatus.failed, error_message := some (msg.take 2000) }

/-- Outcome of a job's `try` body as observed by the `main` wrapper of
calculate_percentiles.py (same shape in every job script): an exception
raised by an early precondition or fetch step, the early no-rows return
(completed with count 0), an exception from a late stage, or normal
completion with an update count.  `except Exception` routes both error
cases to `log_refresh_failed`. -/
inductive JobOutcome
  | earlyError (e : String)
  | noRows
  | lateError (e : String)
  | success (n : ℕ)
deriving DecidableEq

/-- The ledger-state bracket of `main`: `log_refresh_start` creates the
`started` entry, then the body outcome determines the final transition. -/
def run_main (job : String) (o : JobOutcome) : LedgerEntry :=
  match o with
  | JobOutcome.earlyError e => log_refresh_failed (log_refresh_start job) e
  | JobOutcome.noRows => log_refresh_complete (log_refresh_start job) 0
  | JobOutcome.lateError e => log_refresh_failed (log_refresh_start job) e
  | JobOutcome.success n => log_refresh_complete (log_refresh_start job) n

/-- Claim C7: after `main` runs, the ledger entry is never left in
`started` state, and every exception of the body — early or late —
reaches the fail transition, recording `failed` with the error text
truncated to 2000 characters. -/
theorem refresh_ledger_no_started (job : String) (o : JobOutcome) :
    (run_main job o).status ≠ RefreshStatus.started
    ∧ (∀ e, (o = JobOutcome.earlyError e ∨ o = JobOutcome.lateError e) →
        (run_main job o).status = RefreshStatus.failed
        ∧ (run_main job o).error_message = some (e.take 2000)) := by
  constructor
  · cases o <;>
      simp [run_main, log_refresh_failed, log_refresh_complete, log_refresh_start]
  · intro e he
    rcases he with rfl | rfl
    · exact ⟨rfl, rfl⟩
    · exact ⟨rfl, rfl⟩

/-- Witness for C7: a failing body leaves a failed, never-started entry. -/
theorem refresh_ledger_no_started_witness :
    ((run_main ("calculate_percentiles") (JobOutcome.earlyError ("boom"))).status
        = RefreshStatus.failed)
    ∧ (run_main ("calculate_percentiles") (JobOutcome.earlyError ("boom"))).error_message
        = some ("boom".take 2000) :=
  (refresh_ledger_no_started ("calculate_percentiles")
    (JobOutcome.earlyError ("boom"))).2 ("boom") (Or.inl rfl)

end CourtIQ
